import Mathlib

/-!
A shallow embedding of the `summstat` Go package: a streaming statistics
accumulator (`Stats`) with an exact sample-retaining mode and a binned mode.

Modelling conventions:
* Go `float64` sample values are modelled as exact rationals (`ℚ`);
  `math.MaxFloat64` becomes the rational `maxFloat64 = (2^53 - 1) * 2^971`.
* Go `int` counters are modelled as `ℕ` (all counters in the code are
  non-negative).
* Go `panic` is modelled as `Except.error` with a distinct error constructor
  per panic site; the spec groups these into categories (`ErrCategory`).
* Go's `int(x)` float-to-int conversion truncates toward zero; `truncQ`
  models it on `ℚ`.
* `sort.Sort` over samples is modelled by `List.insertionSort (· ≤ ·)`;
  sample values are plain numbers, so stability is not observable.
-/

set_option maxRecDepth 4000
set_option maxHeartbeats 1000000
set_option linter.unusedVariables false

/-- `math.MaxFloat64 = (2 - 2^-52) * 2^1023 = (2^53 - 1) * 2^971`, as an exact
rational (written as its decimal value so that it evaluates cheaply). -/
def maxFloat64 : ℚ := 179769313486231570814527423731704356798070567525844996598917476803157260780028538760589558632766878171540458953514382464234321326889464182768467546703537516986049910576551282076245490090389328944075868508455133942304583236903222948165808559332123348274797826204144723168738177180919299881250404026184124858368

/-- Go `int(x)` conversion of a float to an int: truncation toward zero. -/
def truncQ (q : ℚ) : ℤ := if q < 0 then ⌈q⌉ else ⌊q⌋

/-- One error value per `panic` site in the source. -/
inductive StatsErr where
  /-- `panic("cannot call Percentile() after CreateBins()")` -/
  | illegalState
  /-- `panic("pct too small")` -/
  | pctTooSmall
  /-- `panic("pct too large")` -/
  | pctTooLarge
  /-- `panic("high must be greater than low")` -/
  | highNotGtLow
  /-- `panic("Not enough bins")` -/
  | notEnoughBins
  /-- `panic("Not enough samples")` -/
  | notEnoughSamples
  deriving DecidableEq, Repr

/-- The spec's error taxonomy (section 7). -/
inductive ErrCategory where
  | invalidArgument
  | illegalState
  deriving DecidableEq, Repr

/-- Classification of each panic site by the spec's taxonomy. -/
def StatsErr.category : StatsErr → ErrCategory
  | .pctTooSmall => .invalidArgument
  | .pctTooLarge => .invalidArgument
  | .highNotGtLow => .invalidArgument
  | .notEnoughBins => .invalidArgument
  | .illegalState => .illegalState
  | .notEnoughSamples => .illegalState

instance {ε α : Type} [DecidableEq ε] [DecidableEq α] :
    DecidableEq (Except ε α) := fun x y =>
  match x, y with
  | .ok a, .ok b =>
    if h : a = b then .isTrue (by rw [h]) else .isFalse (by simp [h])
  | .error a, .error b =>
    if h : a = b then .isTrue (by rw [h]) else .isFalse (by simp [h])
  | .ok _, .error _ => .isFalse (by simp)
  | .error _, .ok _ => .isFalse (by simp)

/-- The `Stats` struct of the source, field for field (`Sample` = `ℚ`). -/
structure Stats where
  count : ℕ
  sum : ℚ
  sum2 : ℚ
  max : ℚ
  min : ℚ
  samples : List ℚ
  sorted : Bool
  bins : List ℚ
  binCounts : List ℕ
  deriving DecidableEq, Repr

/-- `NewStats()`: zero values for all fields except the `min`/`max`
sentinels (`min = MaxFloat64`, `max = -MaxFloat64`). -/
def NewStats : Stats :=
  { count := 0, sum := 0, sum2 := 0, max := -maxFloat64, min := maxFloat64,
    samples := [], sorted := false, bins := [], binCounts := [] }

/-- The bin-increment loop of `AddSample`: scan `bins` and `binCounts` in
parallel, increment the count of the first bin whose threshold is `≥ val`,
then stop.  (In the source both slices always have the same length.) -/
def incrBin : List ℚ → List ℕ → ℚ → List ℕ
  | [], cs, _ => cs
  | _ :: _, [], _ => []
  | b :: bs, c :: cs, val =>
    if val ≤ b then (c + 1) :: cs else c :: incrBin bs cs val

/-- `AddSample`: update the running aggregates, then either tally the value
into a bin (binned mode) or append it to `samples` (exact mode). -/
def Stats.AddSample (s : Stats) (val : ℚ) : Stats :=
  if 0 < s.bins.length then
    { s with
      count := s.count + 1, sum := s.sum + val, sum2 := s.sum2 + val * val,
      max := if s.max < val then val else s.max,
      min := if val < s.min then val else s.min,
      binCounts := incrBin s.bins s.binCounts val }
  else
    { s with
      count := s.count + 1, sum := s.sum + val, sum2 := s.sum2 + val * val,
      max := if s.max < val then val else s.max,
      min := if val < s.min then val else s.min,
      samples := s.samples ++ [val], sorted := false }

/-- `Count()`. -/
def Stats.Count (s : Stats) : ℕ := s.count

/-- `Min()`: `0` when the sentinel check `min > max` fires, else `min`. -/
def Stats.Min (s : Stats) : ℚ := if s.max < s.min then 0 else s.min

/-- `Max()`: `0` when the sentinel check `min > max` fires, else `max`. -/
def Stats.Max (s : Stats) : ℚ := if s.max < s.min then 0 else s.max

/-- `Spread()`: `0` when the sentinel check fires, else `max - min`. -/
def Stats.Spread (s : Stats) : ℚ := if s.max < s.min then 0 else s.max - s.min

/-- The samples as sorted by `sortSamples` before an order-statistic query.
(`Percentile`/`Median` take value receivers in Go, so the `sorted` flag
caching is not observable on the original accumulator; the sorted list is
all that matters.) -/
def Stats.sortedSamples (s : Stats) : List ℚ :=
  List.insertionSort (· ≤ ·) s.samples

/-- `Percentile(pct)`, with each `panic` as an error.  The checks appear in
source order: binned mode, empty samples, `pct < 0`, `pct > 1`; then index
`int(float64(len-1)*pct + 0.5)` into the sorted samples. -/
def Stats.Percentile (s : Stats) (pct : ℚ) : Except StatsErr ℚ :=
  if 0 < s.bins.length then .error .illegalState
  else if s.samples.length = 0 then .ok 0
  else if pct < 0 then .error .pctTooSmall
  else if 1 < pct then .error .pctTooLarge
  else
    .ok (s.sortedSamples.getD
      (truncQ (((s.samples.length : ℚ) - 1) * pct + 1 / 2)).toNat 0)

/-- `Median()`: binned-mode check, empty check, then middle element(s) of the
sorted samples (`half = l/2`, `rem = l%2`). -/
def Stats.Median (s : Stats) : Except StatsErr ℚ :=
  if 0 < s.bins.length then .error .illegalState
  else if s.samples.length = 0 then .ok 0
  else
    let a := s.sortedSamples
    let half := s.samples.length / 2
    if s.samples.length % 2 = 0 then
      .ok ((a.getD half 0 + a.getD (half - 1) 0) / 2)
    else
      .ok (a.getD half 0)

/-- The threshold slice built by the loop in `CreateBins`: indices
`0 .. nbins-2` get `Sample(i)*spread/Sample(nbins-2) + low`, and index
`nbins-1` is overwritten with `math.MaxFloat64`. -/
def binsFor (nbins : ℕ) (low high : ℚ) : List ℚ :=
  (List.range nbins).map fun i =>
    if i = nbins - 1 then maxFloat64
    else (i : ℚ) * (high - low) / ((nbins - 2 : ℕ) : ℚ) + low

/-- `CreateBins(nbins, low, high)`: argument checks in source order, then
replace `bins`, reset `binCounts` to zeros, and discard `samples`. -/
def Stats.CreateBins (s : Stats) (nbins : ℕ) (low high : ℚ) :
    Except StatsErr Stats :=
  if high ≤ low then .error .highNotGtLow
  else if nbins < 3 then .error .notEnoughBins
  else .ok { s with
    bins := binsFor nbins low high,
    binCounts := List.replicate nbins 0,
    samples := [] }

/-- `CreateBinsDiscard(nbins, discardPct)`: the `len(samples) < int(1.0/discardPct)`
guard, then delegation to `CreateBins` on the two percentiles. -/
def Stats.CreateBinsDiscard (s : Stats) (nbins : ℕ) (discardPct : ℚ) :
    Except StatsErr Stats :=
  if (s.samples.length : ℤ) < truncQ (1 / discardPct) then
    .error .notEnoughSamples
  else
    match s.Percentile discardPct with
    | .error e => .error e
    | .ok low =>
      match s.Percentile (1 - discardPct) with
      | .error e => .error e
      | .ok high => s.CreateBins nbins low high

/-- Fold a list of sample values into the accumulator. -/
def addSamples (s : Stats) (vals : List ℚ) : Stats :=
  vals.foldl Stats.AddSample s

/-- One mutating API call, for reachability statements.  (`Percentile`,
`Median` and the aggregate queries take value receivers and observably do
not mutate the accumulator.) -/
inductive Op where
  | add (val : ℚ)
  | createBins (nbins : ℕ) (low high : ℚ)
  | createBinsDiscard (nbins : ℕ) (discardPct : ℚ)
  deriving Repr

/-- Apply one mutating call; a call that panics leaves the accumulator as it
was when the panic fired (`CreateBins`/`CreateBinsDiscard` check their
arguments before mutating anything). -/
def applyOp (s : Stats) : Op → Stats
  | .add v => s.AddSample v
  | .createBins nbins low high =>
    match s.CreateBins nbins low high with
    | .ok t => t
    | .error _ => s
  | .createBinsDiscard nbins d =>
    match s.CreateBinsDiscard nbins d with
    | .ok t => t
    | .error _ => s

/-- The accumulator reached from `NewStats()` by a sequence of mutating calls. -/
def runOps (ops : List Op) : Stats :=
  ops.foldl applyOp NewStats

/-- Number of `AddSample` calls in a call sequence. -/
def countAdds (ops : List Op) : ℕ :=
  (ops.filter fun op => match op with | .add _ => true | _ => false).length

attribute [local semireducible] Rat.add Rat.mul Rat.sub Rat.inv Rat.ofScientific

/-! Concrete accumulators used by the test-style statements and witnesses. -/

/-- One sample. -/
def ex1 : Stats := addSamples NewStats [25]

/-- Two samples, as in the round-half-up tie-break test. -/
def ex2 : Stats := addSamples NewStats [1, 2]

/-- Three samples. -/
def ex3 : Stats := addSamples NewStats [1, 2, 3]

/-- The five samples of the percentile test. -/
def ex5 : Stats := addSamples NewStats [0, 1, 10, 25, 100]

/-- Six samples (even count). -/
def ex6 : Stats := addSamples NewStats [0, 1, 2, 3, 4, 5]

/-- An accumulator that has transitioned to binned mode. -/
def exBinned : Stats := runOps [Op.add 1, Op.createBins 3 0 2]

/-! Helper lemmas. -/

theorem maxFloat64_eq_pow : maxFloat64 = ((2 ^ 53 - 1) * 2 ^ 971 : ℕ) := by
  norm_num [maxFloat64]

theorem truncQ_eq_floor (q : ℚ) (h : 0 ≤ q) : truncQ q = ⌊q⌋ := by
  rw [truncQ, if_neg (not_lt.mpr h)]

theorem binsFor_length (nbins : ℕ) (low high : ℚ) :
    (binsFor nbins low high).length = nbins := by
  simp [binsFor]

theorem binsFor_getD (nbins : ℕ) (low high : ℚ) (i : ℕ) (hi : i < nbins) :
    (binsFor nbins low high).getD i 0 =
      if i = nbins - 1 then maxFloat64
      else (i : ℚ) * (high - low) / ((nbins - 2 : ℕ) : ℚ) + low := by
  rw [binsFor, List.getD_eq_getElem?_getD]
  simp [List.getElem?_map, List.getElem?_range, hi]

theorem createBins_ok (s : Stats) (nbins : ℕ) (low high : ℚ)
    (hn : 3 ≤ nbins) (hlh : low < high) :
    s.CreateBins nbins low high =
      .ok { s with bins := binsFor nbins low high,
                   binCounts := List.replicate nbins 0, samples := [] } := by
  rw [Stats.CreateBins, if_neg (not_le.mpr hlh), if_neg (Nat.not_lt.mpr hn)]

theorem createBins_ok_elim (s t : Stats) (nbins : ℕ) (low high : ℚ)
    (h : s.CreateBins nbins low high = .ok t) :
    3 ≤ nbins ∧ low < high ∧
      t = { s with bins := binsFor nbins low high,
                   binCounts := List.replicate nbins 0, samples := [] } := by
  by_cases h1 : high ≤ low
  · rw [Stats.CreateBins, if_pos h1] at h
    exact absurd h (by simp)
  by_cases h2 : nbins < 3
  · rw [Stats.CreateBins, if_neg h1, if_pos h2] at h
    exact absurd h (by simp)
  rw [Stats.CreateBins, if_neg h1, if_neg h2] at h
  cases h
  exact ⟨by omega, not_le.mp h1, rfl⟩

/-! ## C9 -/

/-- C9: in exact mode with zero retained samples, `Percentile(p)` returns 0 for
every `p` (even out-of-range `p`) and raises no error, because the
empty-samples check precedes the range validation. -/
theorem percentile_on_empty (s : Stats) (p : ℚ)
    (hb : s.bins = []) (hs : s.samples = []) : s.Percentile p = .ok 0 := by
  simp [Stats.Percentile, hb, hs]

/-- Witness for C9 at `NewStats` and the out-of-range `p = 5`. -/
theorem percentile_on_empty_witness : NewStats.Percentile 5 = .ok 0 :=
  percentile_on_empty NewStats 5 rfl rfl

/-! ## C10 -/

/-- C10: on an accumulator already in binned mode, `CreateBins` with valid
arguments succeeds again without any error, replacing the thresholds and
resetting every bin count to zero. -/
theorem createBins_repeatable (s : Stats) (nbins : ℕ) (low high : ℚ)
    (hbinned : s.bins ≠ []) (hn : 3 ≤ nbins) (hlh : low < high) :
    s.CreateBins nbins low high =
      .ok { s with bins := binsFor nbins low high,
                   binCounts := List.replicate nbins 0, samples := [] } :=
  createBins_ok s nbins low high hn hlh

/-- Witness for C10: re-bin the already-binned `exBinned`. -/
theorem createBins_repeatable_witness :
    exBinned.CreateBins 4 0 3 =
      .ok { exBinned with bins := binsFor 4 0 3,
                          binCounts := List.replicate 4 0, samples := [] } :=
  createBins_repeatable exBinned 4 0 3 (by decide) (by decide) (by decide)

/-! ## C3 -/

/-- C3: for `nbins ≥ 3` and `low < high`, `CreateBins` succeeds and produces
exactly `nbins` thresholds with `threshold[i] = low + i*(high-low)/(nbins-2)`
for `i < nbins-1` (so `threshold[nbins-2] = high`) and
`threshold[nbins-1] = MaxFloat64`; `CreateBins(5,1,4)` yields
`[1, 2, 3, 4, MAX]`. -/
theorem createBins_thresholds (s : Stats) (nbins : ℕ) (low high : ℚ)
    (hn : 3 ≤ nbins) (hlh : low < high) :
    ∃ t, s.CreateBins nbins low high = .ok t ∧
      t.bins.length = nbins ∧
      (∀ i, i < nbins - 1 →
        t.bins.getD i 0 = low + (i : ℚ) * (high - low) / ((nbins : ℚ) - 2)) ∧
      t.bins.getD (nbins - 2) 0 = high ∧
      t.bins.getD (nbins - 1) 0 = maxFloat64 ∧
      binsFor 5 1 4 = [1, 2, 3, 4, maxFloat64] := by
  have hcast : ((nbins - 2 : ℕ) : ℚ) = (nbins : ℚ) - 2 := by
    push_cast [Nat.cast_sub (by omega : 2 ≤ nbins)]
    ring
  have hne : ((nbins : ℚ) - 2) ≠ 0 := by
    have : (3 : ℚ) ≤ (nbins : ℚ) := by exact_mod_cast hn
    nlinarith
  refine ⟨_, createBins_ok s nbins low high hn hlh, binsFor_length nbins low high,
    ?_, ?_, ?_, by decide⟩
  · intro i hi
    rw [binsFor_getD nbins low high i (by omega), if_neg (by omega), hcast]
    ring
  · rw [binsFor_getD nbins low high (nbins - 2) (by omega), if_neg (by omega),
      hcast]
    have h2 : ((nbins - 2 : ℕ) : ℚ) = (nbins : ℚ) - 2 := hcast
    field_simp
  · rw [binsFor_getD nbins low high (nbins - 1) (by omega), if_pos rfl]

/-- Witness for C3 at `CreateBins(5, 1, 4)`. -/
theorem createBins_thresholds_witness :
    ∃ t, NewStats.CreateBins 5 1 4 = .ok t ∧
      t.bins.length = 5 ∧
      (∀ i, i < 4 →
        t.bins.getD i 0 = 1 + (i : ℚ) * ((4 : ℚ) - 1) / ((5 : ℚ) - 2)) ∧
      t.bins.getD 3 0 = 4 ∧
      t.bins.getD 4 0 = maxFloat64 ∧
      binsFor 5 1 4 = [1, 2, 3, 4, maxFloat64] :=
  createBins_thresholds NewStats 5 1 4 (by decide) (by decide)

/-! More helper lemmas: field behavior of each mutating call. -/

theorem addSample_count (s : Stats) (v : ℚ) :
    (s.AddSample v).count = s.count + 1 := by
  rw [Stats.AddSample]
  split <;> rfl

theorem addSample_min_le (s : Stats) (v : ℚ) : (s.AddSample v).min ≤ v := by
  rw [Stats.AddSample]
  split <;>
  · show (if v < s.min then v else s.min) ≤ v
    split
    next => exact le_rfl
    next h => exact not_lt.mp h

theorem addSample_le_max (s : Stats) (v : ℚ) : v ≤ (s.AddSample v).max := by
  rw [Stats.AddSample]
  split <;>
  · show v ≤ (if s.max < v then v else s.max)
    split
    next => exact le_rfl
    next h => exact not_lt.mp h

theorem createBinsDiscard_ok_elim (s t : Stats) (nbins : ℕ) (d : ℚ)
    (h : s.CreateBinsDiscard nbins d = .ok t) :
    ∃ low high, s.CreateBins nbins low high = .ok t := by
  rw [Stats.CreateBinsDiscard] at h
  split at h
  · exact absurd h (by simp)
  rcases hp1 : s.Percentile d with e | low <;> rw [hp1] at h
  · exact absurd h (by simp)
  rcases hp2 : s.Percentile (1 - d) with e | high <;> rw [hp2] at h
  · exact absurd h (by simp)
  exact ⟨low, high, h⟩

theorem applyOp_createBins_fields (s : Stats) (nbins : ℕ) (low high : ℚ) :
    (applyOp s (.createBins nbins low high)).max = s.max ∧
    (applyOp s (.createBins nbins low high)).min = s.min ∧
    (applyOp s (.createBins nbins low high)).count = s.count := by
  rcases hcb : s.CreateBins nbins low high with e | t
  · simp [applyOp, hcb]
  · obtain ⟨-, -, rfl⟩ := createBins_ok_elim s t nbins low high hcb
    simp [applyOp, hcb]

theorem applyOp_createBinsDiscard_fields (s : Stats) (nbins : ℕ) (d : ℚ) :
    (applyOp s (.createBinsDiscard nbins d)).max = s.max ∧
    (applyOp s (.createBinsDiscard nbins d)).min = s.min ∧
    (applyOp s (.createBinsDiscard nbins d)).count = s.count := by
  rcases hcd : s.CreateBinsDiscard nbins d with e | t
  · simp [applyOp, hcd]
  · obtain ⟨low, high, hcb⟩ := createBinsDiscard_ok_elim s t nbins d hcd
    obtain ⟨-, -, rfl⟩ := createBins_ok_elim s t nbins low high hcb
    simp [applyOp, hcd]

/-- The contribution of one call to the `AddSample`-call count. -/
def opAdds (op : Op) : ℕ :=
  match op with
  | .add _ => 1
  | _ => 0

theorem applyOp_count (s : Stats) (op : Op) :
    (applyOp s op).count = s.count + opAdds op := by
  cases op with
  | add v => exact addSample_count s v
  | createBins nbins low high =>
    rw [(applyOp_createBins_fields s nbins low high).2.2]
    simp [opAdds]
  | createBinsDiscard nbins d =>
    rw [(applyOp_createBinsDiscard_fields s nbins d).2.2]
    simp [opAdds]

theorem countAdds_cons (op : Op) (ops : List Op) :
    countAdds (op :: ops) = opAdds op + countAdds ops := by
  cases op <;> simp [countAdds, opAdds, List.filter_cons] <;> omega

theorem foldl_count (ops : List Op) : ∀ s : Stats,
    (ops.foldl applyOp s).count = s.count + countAdds ops := by
  induction ops with
  | nil => intro s; rw [List.foldl_nil, countAdds]; rfl
  | cons op ops ih =>
    intro s
    rw [List.foldl_cons, ih, applyOp_count, countAdds_cons]
    omega

theorem sentinel_preserved (s : Stats) (op : Op)
    (h : (s.max < s.min) ↔ s.count = 0) :
    ((applyOp s op).max < (applyOp s op).min) ↔ (applyOp s op).count = 0 := by
  cases op with
  | add v =>
    have hc : (applyOp s (.add v)).count = s.count + 1 := addSample_count s v
    have hle : ¬((applyOp s (.add v)).max < (applyOp s (.add v)).min) :=
      not_lt.mpr (le_trans (addSample_min_le s v) (addSample_le_max s v))
    rw [hc]
    simp [hle]
  | createBins nbins low high =>
    obtain ⟨h1, h2, h3⟩ := applyOp_createBins_fields s nbins low high
    rw [h1, h2, h3]
    exact h
  | createBinsDiscard nbins d =>
    obtain ⟨h1, h2, h3⟩ := applyOp_createBinsDiscard_fields s nbins d
    rw [h1, h2, h3]
    exact h

/-! ## C6 -/

/-- C6: on every reachable accumulator, the sentinel check `min > max` holds
exactly when `count = 0`, and `Min()` returns `0` when `count = 0` and the
`min` field otherwise, the decision being made by that sentinel check. -/
theorem min_sentinel (ops : List Op) :
    (((runOps ops).max < (runOps ops).min) ↔ (runOps ops).count = 0) ∧
    (runOps ops).Min = (if (runOps ops).count = 0 then 0 else (runOps ops).min) := by
  have key : ∀ (l : List Op) (s : Stats), ((s.max < s.min) ↔ s.count = 0) →
      (((l.foldl applyOp s).max < (l.foldl applyOp s).min) ↔
        (l.foldl applyOp s).count = 0) := by
    intro l
    induction l with
    | nil => exact fun s h => h
    | cons op l ih =>
      intro s h
      rw [List.foldl_cons]
      exact ih _ (sentinel_preserved s op h)
  have base : (NewStats.max < NewStats.min) ↔ NewStats.count = 0 := by
    constructor
    · intro _; rfl
    · intro _
      show -maxFloat64 < maxFloat64
      decide
  have h : ((runOps ops).max < (runOps ops).min) ↔ (runOps ops).count = 0 :=
    key ops NewStats base
  refine ⟨h, ?_⟩
  by_cases hc : (runOps ops).count = 0
  · rw [if_pos hc, Stats.Min, if_pos (h.mpr hc)]
  · rw [if_neg hc, Stats.Min, if_neg (fun habs => hc (h.mp habs))]

/-! ## C7 -/

/-- C7: whenever `CreateBins` succeeds, `count`, `sum`, `sumOfSquares`
(`sum2`), `min` and `max` are identical before and after the call (only
`bins`, `binCounts` and `samples` change, `sorted` also being untouched);
and `count` always equals the total number of `AddSample` calls regardless
of mode switches. -/
theorem createBins_frame (s : Stats) (nbins : ℕ) (low high : ℚ) (t : Stats)
    (h : s.CreateBins nbins low high = .ok t) (ops : List Op) :
    t.count = s.count ∧ t.sum = s.sum ∧ t.sum2 = s.sum2 ∧
    t.min = s.min ∧ t.max = s.max ∧ t.sorted = s.sorted ∧
    (runOps ops).count = countAdds ops := by
  obtain ⟨-, -, rfl⟩ := createBins_ok_elim s t nbins low high h
  refine ⟨rfl, rfl, rfl, rfl, rfl, rfl, ?_⟩
  rw [runOps, foldl_count]
  simp [NewStats]

/-- The result of `CreateBins(3, 0, 1)` on a fresh accumulator, for the C7
witness. -/
def tEx : Stats :=
  { NewStats with bins := binsFor 3 0 1, binCounts := List.replicate 3 0,
                  samples := [] }

/-- A call sequence with two `AddSample` calls and a mode switch. -/
def opsEx : List Op := [Op.add 1, Op.createBins 3 0 1, Op.add 2]

/-- Witness for C7 at `CreateBins(3, 0, 1)` on `NewStats` and a concrete call
sequence. -/
theorem createBins_frame_witness :
    tEx.count = NewStats.count ∧ tEx.sum = NewStats.sum ∧
    tEx.sum2 = NewStats.sum2 ∧ tEx.min = NewStats.min ∧
    tEx.max = NewStats.max ∧ tEx.sorted = NewStats.sorted ∧
    (runOps opsEx).count = countAdds opsEx :=
  createBins_frame NewStats 3 0 1 tEx (by decide) opsEx

/-! ## C1 -/

/-- C1: in exact mode with `n > 0` retained samples and `0 ≤ p ≤ 1`,
`Percentile(p)` returns the element at index `floor((n-1)*p + 0.5)` of the
samples sorted ascending (nearest-rank, round-half-up), the index being in
range; in particular on samples `[1,2]`: `Percentile(0)=1`,
`Percentile(0.5)=2`, `Percentile(1)=2`. -/
theorem percentile_nearest_rank (s : Stats) (p : ℚ) (hbins : s.bins = [])
    (hne : s.samples ≠ []) (h0 : 0 ≤ p) (h1 : p ≤ 1) :
    List.Sorted (· ≤ ·) s.sortedSamples ∧
    List.Perm s.samples s.sortedSamples ∧
    (⌊((s.samples.length : ℚ) - 1) * p + 1 / 2⌋).toNat < s.samples.length ∧
    s.Percentile p =
      .ok (s.sortedSamples.getD
        (⌊((s.samples.length : ℚ) - 1) * p + 1 / 2⌋).toNat 0) ∧
    ex2.Percentile 0 = .ok 1 ∧
    ex2.Percentile (1 / 2) = .ok 2 ∧
    ex2.Percentile 1 = .ok 2 := by
  have hn : 1 ≤ s.samples.length := List.length_pos.mpr hne
  have hn0 : (0 : ℚ) ≤ (s.samples.length : ℚ) - 1 := by
    have h : (1 : ℚ) ≤ (s.samples.length : ℚ) := by exact_mod_cast hn
    linarith
  have hx0 : (0 : ℚ) ≤ ((s.samples.length : ℚ) - 1) * p + 1 / 2 := by
    have h := mul_nonneg hn0 h0
    linarith
  have hxlt : ((s.samples.length : ℚ) - 1) * p + 1 / 2 <
      (s.samples.length : ℚ) := by
    have h2 : ((s.samples.length : ℚ) - 1) * p ≤ ((s.samples.length : ℚ) - 1) * 1 :=
      mul_le_mul_of_nonneg_left h1 hn0
    linarith
  have hfloor : ⌊((s.samples.length : ℚ) - 1) * p + 1 / 2⌋ <
      (s.samples.length : ℤ) :=
    Int.floor_lt.mpr (by exact_mod_cast hxlt)
  have hidx : (⌊((s.samples.length : ℚ) - 1) * p + 1 / 2⌋).toNat <
      s.samples.length := by omega
  have hb : ¬ 0 < s.bins.length := by simp [hbins]
  have hs : ¬ s.samples.length = 0 := by simpa using hne
  refine ⟨List.sorted_insertionSort _ _, (List.perm_insertionSort _ _).symm,
    hidx, ?_, by decide, by decide, by decide⟩
  rw [Stats.Percentile, if_neg hb, if_neg hs, if_neg (not_lt.mpr h0),
    if_neg (not_lt.mpr h1), truncQ_eq_floor _ hx0]

/-- Witness for C1 at the five-sample accumulator and `p = 1/2`. -/
theorem percentile_nearest_rank_witness :
    List.Sorted (· ≤ ·) ex5.sortedSamples ∧
    List.Perm ex5.samples ex5.sortedSamples ∧
    (⌊((ex5.samples.length : ℚ) - 1) * (1 / 2) + 1 / 2⌋).toNat <
      ex5.samples.length ∧
    ex5.Percentile (1 / 2) =
      .ok (ex5.sortedSamples.getD
        (⌊((ex5.samples.length : ℚ) - 1) * (1 / 2) + 1 / 2⌋).toNat 0) ∧
    ex2.Percentile 0 = .ok 1 ∧
    ex2.Percentile (1 / 2) = .ok 2 ∧
    ex2.Percentile 1 = .ok 2 :=
  percentile_nearest_rank ex5 (1 / 2) (by decide) (by decide) (by decide)
    (by decide)

/-! ## C8 -/

/-- C8: in exact mode, `Median()` returns 0 on zero samples; on an even
count `n` it returns `(a[n/2] + a[n/2-1])/2` of the ascending-sorted samples
`a`; on an odd count it returns `a[n/2]` (integer division); in particular
the median of `[1,2,3]` is 2 and the median of `[0,1,2,3,4,5]` is `5/2`. -/
theorem median_cases (s t u : Stats)
    (hsb : s.bins = []) (hsne : s.samples ≠ []) (hse : s.samples.length % 2 = 0)
    (htb : t.bins = []) (hto : t.samples.length % 2 = 1)
    (hub : u.bins = []) (hue : u.samples = []) :
    u.Median = .ok 0 ∧
    List.Sorted (· ≤ ·) s.sortedSamples ∧ List.Perm s.samples s.sortedSamples ∧
    List.Sorted (· ≤ ·) t.sortedSamples ∧ List.Perm t.samples t.sortedSamples ∧
    s.Median = .ok ((s.sortedSamples.getD (s.samples.length / 2) 0 +
      s.sortedSamples.getD (s.samples.length / 2 - 1) 0) / 2) ∧
    t.Median = .ok (t.sortedSamples.getD (t.samples.length / 2) 0) ∧
    ex3.Median = .ok 2 ∧
    ex6.Median = .ok (5 / 2) := by
  have hub2 : ¬ 0 < u.bins.length := by simp [hub]
  have hsb2 : ¬ 0 < s.bins.length := by simp [hsb]
  have htb2 : ¬ 0 < t.bins.length := by simp [htb]
  have hsne2 : ¬ s.samples.length = 0 := by simpa using hsne
  have htne2 : ¬ t.samples.length = 0 := by omega
  refine ⟨?_, List.sorted_insertionSort _ _, (List.perm_insertionSort _ _).symm,
    List.sorted_insertionSort _ _, (List.perm_insertionSort _ _).symm,
    ?_, ?_, by decide, by decide⟩
  · rw [Stats.Median, if_neg hub2, if_pos (by simp [hue])]
  · rw [Stats.Median, if_neg hsb2, if_neg hsne2]
    dsimp only
    rw [if_pos hse]
  · rw [Stats.Median, if_neg htb2, if_neg htne2]
    dsimp only
    rw [if_neg (by omega)]

/-- Witness for C8 at the six-, three- and zero-sample accumulators. -/
theorem median_cases_witness :
    NewStats.Median = .ok 0 ∧
    List.Sorted (· ≤ ·) ex6.sortedSamples ∧ List.Perm ex6.samples ex6.sortedSamples ∧
    List.Sorted (· ≤ ·) ex3.sortedSamples ∧ List.Perm ex3.samples ex3.sortedSamples ∧
    ex6.Median = .ok ((ex6.sortedSamples.getD (ex6.samples.length / 2) 0 +
      ex6.sortedSamples.getD (ex6.samples.length / 2 - 1) 0) / 2) ∧
    ex3.Median = .ok (ex3.sortedSamples.getD (ex3.samples.length / 2) 0) ∧
    ex3.Median = .ok 2 ∧
    ex6.Median = .ok (5 / 2) :=
  median_cases ex6 ex3 NewStats (by decide) (by decide) (by decide)
    (by decide) (by decide) (by decide) (by decide)

/-! ## C2 -/

theorem addSample_bins (s : Stats) (v : ℚ) : (s.AddSample v).bins = s.bins := by
  rw [Stats.AddSample]
  split <;> rfl

theorem addSample_binCounts_binned (s : Stats) (v : ℚ)
    (h : 0 < s.bins.length) :
    (s.AddSample v).binCounts = incrBin s.bins s.binCounts v := by
  rw [Stats.AddSample, if_pos h]

theorem incrBin_length (bs : List ℚ) : ∀ (cs : List ℕ) (v : ℚ),
    (incrBin bs cs v).length = cs.length := by
  induction bs with
  | nil => intro cs v; rfl
  | cons b bs ih =>
    intro cs v
    cases cs with
    | nil => rfl
    | cons c cs =>
      rw [incrBin]
      split
      · rfl
      · simp [ih]

theorem incrBin_sum (bs : List ℚ) : ∀ (cs : List ℕ) (v : ℚ),
    bs ≠ [] → bs.getLast? = some maxFloat64 → cs.length = bs.length →
    v ≤ maxFloat64 → (incrBin bs cs v).sum = cs.sum + 1 := by
  induction bs with
  | nil => intro cs v h; exact absurd rfl h
  | cons b bs ih =>
    intro cs v hne hlast hlen hv
    cases cs with
    | nil => simp at hlen
    | cons c cs =>
      rw [incrBin]
      by_cases hvb : v ≤ b
      · rw [if_pos hvb]
        simp [List.sum_cons]
        omega
      · rw [if_neg hvb]
        cases bs with
        | nil =>
          simp at hlast
          exact absurd (hlast ▸ hv) hvb
        | cons b2 bs2 =>
          have hlast2 : (b2 :: bs2).getLast? = some maxFloat64 := by
            rwa [List.getLast?_cons_cons] at hlast
          have hrec : (incrBin (b2 :: bs2) cs v).sum = cs.sum + 1 :=
            ih cs v (by simp) hlast2 (by simpa using hlen) hv
          simp [List.sum_cons, hrec]
          omega

theorem binsFor_ne_nil (nbins : ℕ) (low high : ℚ) (h : 0 < nbins) :
    binsFor nbins low high ≠ [] := by
  simp [binsFor, List.range_eq_nil]
  omega

theorem binsFor_getLast (nbins : ℕ) (low high : ℚ) (h : 0 < nbins) :
    (binsFor nbins low high).getLast? = some maxFloat64 := by
  rw [List.getLast?_eq_getElem?, binsFor_length, binsFor]
  simp [List.getElem?_map, List.getElem?_range, Nat.sub_lt h]

theorem addSamples_binned_sum (vals : List ℚ) : ∀ (s : Stats),
    s.bins ≠ [] → s.bins.getLast? = some maxFloat64 →
    s.binCounts.length = s.bins.length →
    (∀ v ∈ vals, v ≤ maxFloat64) →
    (addSamples s vals).binCounts.sum = s.binCounts.sum + vals.length := by
  induction vals with
  | nil => intro s _ _ _ _; simp [addSamples]
  | cons v vs ih =>
    intro s hne hlast hlen hv
    have hpos : 0 < s.bins.length := List.length_pos.mpr hne
    have h1 : (s.AddSample v).bins = s.bins := addSample_bins s v
    have h2 : (s.AddSample v).binCounts = incrBin s.bins s.binCounts v :=
      addSample_binCounts_binned s v hpos
    have hstep : (addSamples (s.AddSample v) vs).binCounts.sum =
        (s.AddSample v).binCounts.sum + vs.length :=
      ih (s.AddSample v) (by rw [h1]; exact hne) (by rw [h1]; exact hlast)
        (by rw [h2, h1, incrBin_length]; exact hlen)
        (fun w hw => hv w (List.mem_cons_of_mem _ hw))
    have hsum : (s.AddSample v).binCounts.sum = s.binCounts.sum + 1 := by
      rw [h2]
      exact incrBin_sum s.bins s.binCounts v hne hlast hlen
        (hv v (List.mem_cons_self _ _))
    show (addSamples (s.AddSample v) vs).binCounts.sum =
      s.binCounts.sum + (v :: vs).length
    rw [hstep, hsum, List.length_cons]
    omega

/-- C2: after a transition to binned mode via `CreateBins`, the bin counts
start at zero (samples added before bin creation are never reflected) and
after any sequence of `AddSample` calls with representable values the sum of
all bin counts equals the number of samples added since the transition. -/
theorem binned_counts_sum (s t : Stats) (nbins : ℕ) (low high : ℚ)
    (vals : List ℚ) (hcreate : s.CreateBins nbins low high = .ok t)
    (hvals : ∀ v ∈ vals, v ≤ maxFloat64) :
    t.binCounts.sum = 0 ∧
    (addSamples t vals).binCounts.sum = vals.length := by
  obtain ⟨hn3, hlh, rfl⟩ := createBins_ok_elim s t nbins low high hcreate
  have hzero : (List.replicate nbins (0 : ℕ)).sum = 0 := by
    simp
  refine ⟨hzero, ?_⟩
  rw [addSamples_binned_sum vals _ (binsFor_ne_nil nbins low high (by omega))
    (binsFor_getLast nbins low high (by omega))
    (by simp [binsFor_length]) hvals]
  rw [hzero]
  omega

/-- Witness for C2: three samples added after `CreateBins(3, 0, 1)`. -/
theorem binned_counts_sum_witness :
    tEx.binCounts.sum = 0 ∧
    (addSamples tEx [5, -7, 1/2]).binCounts.sum = [(5 : ℚ), -7, 1/2].length :=
  binned_counts_sum NewStats tEx 3 0 1 [5, -7, 1/2] (by decide) (by decide)

/-! ## C5 -/

/-- C5 (amended): in exact mode with at least one retained sample,
`Percentile(p)` fails with an InvalidArgument condition whenever `p < 0` or
`p > 1` (on an empty exact-mode accumulator the empty-samples check wins and
0 is returned instead); in binned mode `Percentile` fails with an
IllegalState condition for every argument. -/
theorem percentile_error_conditions (s t : Stats) (p q : ℚ)
    (hsb : s.bins = []) (hsne : s.samples ≠ []) (hp : p < 0 ∨ 1 < p)
    (htb : t.bins ≠ []) :
    (∃ e, s.Percentile p = .error e ∧ e.category = .invalidArgument) ∧
    (∃ e, t.Percentile q = .error e ∧ e.category = .illegalState) := by
  have hb : ¬ 0 < s.bins.length := by simp [hsb]
  have hs : ¬ s.samples.length = 0 := by simpa using hsne
  constructor
  · rcases hp with hp | hp
    · exact ⟨.pctTooSmall,
        by rw [Stats.Percentile, if_neg hb, if_neg hs, if_pos hp], rfl⟩
    · refine ⟨.pctTooLarge, ?_, rfl⟩
      rw [Stats.Percentile, if_neg hb, if_neg hs,
        if_neg (by linarith : ¬ p < 0), if_pos hp]
  · refine ⟨.illegalState, ?_, rfl⟩
    rw [Stats.Percentile, if_pos (List.length_pos.mpr htb)]

/-- Counterexample to C5 as stated: `NewStats` is not in binned mode, yet
`Percentile(2)` returns `ok 0` instead of failing with an InvalidArgument
condition, because the empty-samples check precedes the range validation. -/
theorem percentile_error_counterexample :
    NewStats.bins = [] ∧ NewStats.Percentile 2 = .ok 0 :=
  ⟨rfl, by decide⟩

/-- Witness for C5 (amended) at a one-sample accumulator with `p = 2` and a
binned accumulator with `q = 1/2`. -/
theorem percentile_error_conditions_witness :
    (∃ e, ex1.Percentile 2 = .error e ∧ e.category = .invalidArgument) ∧
    (∃ e, exBinned.Percentile (1/2) = .error e ∧ e.category = .illegalState) :=
  percentile_error_conditions ex1 exBinned 2 (1/2) (by decide) (by decide)
    (Or.inr (by decide)) (by decide)

/-! ## C4 -/

theorem percentile_error_ne_notEnoughSamples (s : Stats) (p : ℚ) :
    ∀ e, s.Percentile p = .error e → e ≠ .notEnoughSamples := by
  intro e he
  rw [Stats.Percentile] at he
  split at he
  · cases he
    simp
  split at he
  · cases he
  split at he
  · cases he
    simp
  split at he
  · cases he
    simp
  · cases he

theorem createBins_error_ne_notEnoughSamples (s : Stats) (nbins : ℕ)
    (low high : ℚ) :
    ∀ e, s.CreateBins nbins low high = .error e → e ≠ .notEnoughSamples := by
  intro e he
  rw [Stats.CreateBins] at he
  split at he
  · cases he
    simp
  split at he
  · cases he
    simp
  · cases he

/-- C4 (amended): in exact mode with `discardFraction > 0`,
`CreateBinsDiscard(nbins, discardFraction)` fails with the IllegalState
condition ("not enough samples") if and only if the number of retained
samples is less than `floor(1/discardFraction)` — integer truncation, not
ceiling — and otherwise delegates to
`CreateBins(nbins, Percentile(discardFraction), Percentile(1-discardFraction))`. -/
theorem createBinsDiscard_guard (s : Stats) (nbins : ℕ) (d low high : ℚ)
    (hb : s.bins = []) (hd : 0 < d) :
    (s.CreateBinsDiscard nbins d = .error .notEnoughSamples ↔
      (s.samples.length : ℤ) < ⌊1 / d⌋) ∧
    StatsErr.notEnoughSamples.category = .illegalState ∧
    (⌊1 / d⌋ ≤ (s.samples.length : ℤ) → s.Percentile d = .ok low →
      s.Percentile (1 - d) = .ok high →
      s.CreateBinsDiscard nbins d = s.CreateBins nbins low high) := by
  have htr : truncQ (1 / d) = ⌊1 / d⌋ :=
    truncQ_eq_floor _ (by positivity)
  refine ⟨⟨?_, ?_⟩, rfl, ?_⟩
  · intro h
    by_contra hlt
    rw [Stats.CreateBinsDiscard, htr, if_neg hlt] at h
    rcases hp1 : s.Percentile d with e | low2 <;> rw [hp1] at h
    · have he : e = .notEnoughSamples := by
        simpa using h
      exact percentile_error_ne_notEnoughSamples s d e hp1 he
    rcases hp2 : s.Percentile (1 - d) with e | high2 <;> rw [hp2] at h
    · have he : e = .notEnoughSamples := by
        simpa using h
      exact percentile_error_ne_notEnoughSamples s (1 - d) e hp2 he
    · exact createBins_error_ne_notEnoughSamples s nbins low2 high2
        .notEnoughSamples (by simpa using h) rfl
  · intro hlt
    rw [Stats.CreateBinsDiscard, htr, if_pos hlt]
  · intro hge hp1 hp2
    rw [Stats.CreateBinsDiscard, htr, if_neg (not_lt.mpr hge), hp1, hp2]

/-- Counterexample to C4 as stated: two retained samples and
`discardFraction = 2/5`; `2 < ceil(1/(2/5)) = 3`, so the claim requires an
IllegalState failure, yet `CreateBinsDiscard(3, 2/5)` succeeds (the source
compares against the truncation `int(1/discardPct) = 2`). -/
theorem createBinsDiscard_guard_counterexample :
    ((ex2.samples.length : ℤ) < ⌈(1 : ℚ) / (2 / 5)⌉) ∧
    ex2.CreateBinsDiscard 3 (2 / 5) =
      .ok { ex2 with bins := binsFor 3 1 2, binCounts := List.replicate 3 0,
                     samples := [] } := by
  exact ⟨by decide, by decide⟩

/-- Witness for C4 (amended) at the five-sample accumulator with
`discardFraction = 1/3`. -/
theorem createBinsDiscard_guard_witness :
    (ex5.CreateBinsDiscard 3 (1/3) = .error .notEnoughSamples ↔
      (ex5.samples.length : ℤ) < ⌊(1 : ℚ) / (1/3)⌋) ∧
    StatsErr.notEnoughSamples.category = .illegalState ∧
    (⌊(1 : ℚ) / (1/3)⌋ ≤ (ex5.samples.length : ℤ) →
      ex5.Percentile (1/3) = .ok 1 →
      ex5.Percentile (1 - 1/3) = .ok 25 →
      ex5.CreateBinsDiscard 3 (1/3) = ex5.CreateBins 3 1 25) :=
  createBinsDiscard_guard ex5 3 (1/3) 1 25 (by decide) (by decide)
